import Mathlib

/-!
# Verification of the sealmaster shared-folder ledger

Shallow embedding of the repository's core logic:

* `src/types.ts` — `LedgerEntry`, `LockState`, `LogEntry`, `CombinedDatabase`,
  `INITIAL_DB`;
* `src/services/fileService.ts` — `sanitizeForFileName`,
  `generateEntryFileName`, the orphan-cleanup part of `syncSaveToDirectory`,
  `excelDateToJSDate`, `normalizeDate`;
* the `sortAndRenumber` / `handleSubmit` / `handleDeleteRow` /
  `handleCellEdit` handlers of the ledger-management component.

JavaScript strings are modelled as Lean `String` (a list of Unicode
characters); `substring`, `trim`, `replace` and company operate on the
character list.  JavaScript numbers appearing in date normalization are
modelled as integers, with numeric cell strings modelled as decimal digit
strings with an optional fractional part (scientific or hexadecimal
notation is outside the model).
-/

namespace Sealmaster

/-- `LedgerEntry` of `src/types.ts`: `fileData` is the Base64 PDF payload,
held only in memory. -/
structure LedgerEntry where
  id : Nat
  date : String
  docNum : String
  content : String
  recipient : String
  author : String
  fileName : Option String := none
  fileData : Option String := none
deriving DecidableEq

/-- The character class `[\\/:*?"<>|]` of `sanitizeForFileName`. -/
def forbiddenChar (c : Char) : Bool :=
  c = '\\' || c = '/' || c = ':' || c = '*' || c = '?' || c = '"' ||
  c = '<' || c = '>' || c = '|'

/-- Whitespace removed by JavaScript `String.prototype.trim` (the common
code points; exotic Unicode spaces behave the same way for our purposes). -/
def jsWhitespace (c : Char) : Bool :=
  c = ' ' || c = '\t' || c = '\n' || c = '\r' || c = '\x0b' || c = '\x0c' ||
  c = Char.ofNat 0xa0 || c = Char.ofNat 0xfeff

/-- `trim()` on the character list: drop whitespace from both ends. -/
def jsTrim (s : String) : String :=
  ⟨((s.data.dropWhile jsWhitespace).reverse.dropWhile jsWhitespace).reverse⟩

/-- `substring(0, n)`: the first `n` characters. -/
def strTake (s : String) (n : Nat) : String := ⟨s.data.take n⟩

/-- JavaScript `a || b` on strings: the fallback when `a` is empty. -/
def jsOr (s fallback : String) : String := if s.isEmpty then fallback else s

/-- The global replacement of `'-'` by the empty string. -/
def removeHyphens (s : String) : String := ⟨s.data.filter (fun c => c ≠ '-')⟩

/-- `sanitizeForFileName` (fileService.ts): empty in, empty out; otherwise
replace each forbidden character with `'_'`, then `trim()`. -/
def sanitizeForFileName (text : String) : String :=
  if text.isEmpty then ""
  else jsTrim ⟨text.data.map (fun c => if forbiddenChar c then '_' else c)⟩

/-- `generateEntryFileName` (fileService.ts): date with hyphens stripped
(`'00000000'` when the date is empty), sanitized content truncated to 20,
sanitized recipient truncated to 10, sanitized author, joined by
underscores, with placeholder components for empty fields and a `.pdf`
extension. -/
def generateEntryFileName (entry : LedgerEntry) : String :=
  let dateStr := if entry.date.isEmpty then "00000000" else removeHyphens entry.date
  let contentStr := strTake (sanitizeForFileName entry.content) 20
  let recipientStr := strTake (sanitizeForFileName entry.recipient) 10
  let authorStr := sanitizeForFileName entry.author
  dateStr ++ "_" ++ jsOr contentStr "내용없음" ++ "_" ++ jsOr recipientStr "수신처없음"
    ++ "_" ++ jsOr authorStr "작성자미상" ++ ".pdf"

/-- The content component of the generated name (sanitized, truncated to 20,
with the `'내용없음'` placeholder when empty). -/
def contentComponent (content : String) : String :=
  jsOr (strTake (sanitizeForFileName content) 20) "내용없음"

/-- The recipient component of the generated name. -/
def recipientComponent (recipient : String) : String :=
  jsOr (strTake (sanitizeForFileName recipient) 10) "수신처없음"

/-- The author component of the generated name (sanitized, NOT truncated). -/
def authorComponent (author : String) : String :=
  jsOr (sanitizeForFileName author) "작성자미상"

/-- The date component of the generated name. -/
def dateComponent (date : String) : String :=
  if date.isEmpty then "00000000" else removeHyphens date

theorem generateEntryFileName_eq (e : LedgerEntry) :
    generateEntryFileName e =
      dateComponent e.date ++ "_" ++ contentComponent e.content ++ "_"
        ++ recipientComponent e.recipient ++ "_" ++ authorComponent e.author ++ ".pdf" := rfl

/-- The end-to-end example record of the spec. -/
def exampleEntry : LedgerEntry :=
  { id := 1, date := "2024-03-05", docNum := "", content := "승인요청서",
    recipient := "총무팀", author := "김철수" }

/-! ## Facts about sanitization and the generated name -/

theorem mem_of_mem_jsTrim {x : Char} {s : String} (h : x ∈ (jsTrim s).data) : x ∈ s.data := by
  unfold jsTrim at h
  rw [List.mem_reverse] at h
  have h1 := (List.dropWhile_sublist jsWhitespace).subset h
  rw [List.mem_reverse] at h1
  exact (List.dropWhile_sublist jsWhitespace).subset h1

theorem sanitize_forbidden_free (s : String) :
    ∀ x ∈ (sanitizeForFileName s).data, forbiddenChar x = false := by
  intro x hx
  unfold sanitizeForFileName at hx
  split at hx
  · simp only [String.data] at hx
    exact absurd hx (List.not_mem_nil x)
  · have hx' := mem_of_mem_jsTrim hx
    simp only [List.mem_map] at hx'
    obtain ⟨c, -, hc⟩ := hx'
    by_cases hf : forbiddenChar c
    · rw [if_pos hf] at hc; rw [← hc]; decide
    · rw [if_neg hf] at hc; rw [← hc]
      exact Bool.not_eq_true _ ▸ hf

theorem strTake_length_le (s : String) (n : Nat) : (strTake s n).length ≤ n := by
  show (s.data.take n).length ≤ n
  simp [List.length_take]

theorem mem_of_mem_strTake {x : Char} {s : String} {n : Nat}
    (h : x ∈ (strTake s n).data) : x ∈ s.data :=
  List.take_subset n s.data h

theorem jsOr_ne_empty (s f : String) (hf : f ≠ "") : jsOr s f ≠ "" := by
  unfold jsOr
  split
  · exact hf
  · next he =>
    intro h
    exact he (by rw [h]; rfl)

theorem contentComponent_length (c : String) : (contentComponent c).length ≤ 20 := by
  unfold contentComponent jsOr
  split
  · decide
  · exact strTake_length_le _ 20

theorem recipientComponent_length (r : String) : (recipientComponent r).length ≤ 10 := by
  unfold recipientComponent jsOr
  split
  · decide
  · exact strTake_length_le _ 10

theorem contentComponent_forbidden_free (c : String) :
    ∀ x ∈ (contentComponent c).data, forbiddenChar x = false := by
  unfold contentComponent jsOr
  split
  · decide
  · intro x hx
    exact sanitize_forbidden_free c x (mem_of_mem_strTake hx)

theorem recipientComponent_forbidden_free (r : String) :
    ∀ x ∈ (recipientComponent r).data, forbiddenChar x = false := by
  unfold recipientComponent jsOr
  split
  · decide
  · intro x hx
    exact sanitize_forbidden_free r x (mem_of_mem_strTake hx)

/-- Cancellation: two generated names with identical date, recipient and
author parts but different content parts are different strings. -/
theorem name_content_inj {d r a k₁ k₂ : String}
    (h : d ++ "_" ++ k₁ ++ "_" ++ r ++ "_" ++ a ++ ".pdf"
       = d ++ "_" ++ k₂ ++ "_" ++ r ++ "_" ++ a ++ ".pdf") : k₁ = k₂ := by
  have hd := congrArg String.data h
  simp only [String.data_append, List.append_assoc] at hd
  have h2 := List.append_cancel_left hd
  have h3 := List.append_cancel_left h2
  exact String.ext (List.append_cancel_right h3)

/-- The name computed the way claim C3 describes it: the date component,
too, has every character of the forbidden class replaced by underscore
after the hyphens are stripped. -/
def generateEntryFileNameDateSanitized (entry : LedgerEntry) : String :=
  let dateStr := if entry.date.isEmpty then "00000000"
    else ⟨(removeHyphens entry.date).data.map (fun c => if forbiddenChar c then '_' else c)⟩
  let contentStr := strTake (sanitizeForFileName entry.content) 20
  let recipientStr := strTake (sanitizeForFileName entry.recipient) 10
  let authorStr := sanitizeForFileName entry.author
  dateStr ++ "_" ++ jsOr contentStr "내용없음" ++ "_" ++ jsOr recipientStr "수신처없음"
    ++ "_" ++ jsOr authorStr "작성자미상" ++ ".pdf"

/-- A record whose date carries a filesystem-unsafe character. -/
def questionDateEntry : LedgerEntry :=
  { id := 1, date := "2024?03?05", docNum := "", content := "c", recipient := "r",
    author := "a" }

/-- C3 counterexample: the code never sanitizes the date — only hyphens are
stripped — so the date "2024?03?05" keeps its question marks in the
generated name, while the name the claim describes (date sanitized like the
other components) replaces them with underscores. -/
theorem claim_C3_counterexample :
    generateEntryFileName questionDateEntry = "2024?03?05_c_r_a.pdf" ∧
    generateEntryFileNameDateSanitized questionDateEntry = "2024_03_05_c_r_a.pdf" ∧
    generateEntryFileName questionDateEntry
      ≠ generateEntryFileNameDateSanitized questionDateEntry ∧
    '?' ∈ (generateEntryFileName questionDateEntry).data ∧
    forbiddenChar '?' = true := by decide

/-- C3 amended: the deterministic attachment name is the underscore-joined
concatenation of a date part, a content part of at most 20 characters, a
recipient part of at most 10 characters and an author part, ending in
`.pdf`, where content and recipient are free of the characters
`\ / : * ? " < > |` but the date part is only hyphen-stripped and NOT
sanitized (forbidden characters in the date survive); the record with
content "승인요청서", recipient "총무팀", author "김철수", date
"2024-03-05" yields exactly "20240305_승인요청서_총무팀_김철수.pdf". -/
theorem claim_C3_amended :
    generateEntryFileName exampleEntry = "20240305_승인요청서_총무팀_김철수.pdf" ∧
    ∀ e : LedgerEntry, ∃ d c r a : String,
      generateEntryFileName e = d ++ "_" ++ c ++ "_" ++ r ++ "_" ++ a ++ ".pdf" ∧
      c.length ≤ 20 ∧ r.length ≤ 10 ∧
      (∀ x ∈ c.data, forbiddenChar x = false) ∧
      (∀ x ∈ r.data, forbiddenChar x = false) ∧
      (e.date ≠ "" → d = removeHyphens e.date) := by
  refine ⟨by decide, fun e => ?_⟩
  refine ⟨dateComponent e.date, contentComponent e.content, recipientComponent e.recipient,
    authorComponent e.author, generateEntryFileName_eq e,
    contentComponent_length e.content, recipientComponent_length e.recipient,
    contentComponent_forbidden_free e.content, recipientComponent_forbidden_free e.recipient,
    fun h => ?_⟩
  rw [dateComponent, if_neg (fun hc => h ((String.isEmpty_iff _).1 hc))]

theorem claim_C3_amended_witness :
    ∃ d c r a : String,
      generateEntryFileName questionDateEntry = d ++ "_" ++ c ++ "_" ++ r ++ "_" ++ a ++ ".pdf" ∧
      d = removeHyphens questionDateEntry.date := by
  obtain ⟨d, c, r, a, heq, -, -, -, -, hd⟩ := claim_C3_amended.2 questionDateEntry
  exact ⟨d, c, r, a, heq, hd (by decide)⟩

/-! ## C4: the author component is not truncated -/

/-- The name computed the way claim C4 describes it: the author component
truncated to 10 characters after sanitization, like the recipient. -/
def generateEntryFileNameAuthorTruncated (entry : LedgerEntry) : String :=
  let dateStr := if entry.date.isEmpty then "00000000" else removeHyphens entry.date
  let contentStr := strTake (sanitizeForFileName entry.content) 20
  let recipientStr := strTake (sanitizeForFileName entry.recipient) 10
  let authorStr := strTake (sanitizeForFileName entry.author) 10
  dateStr ++ "_" ++ jsOr contentStr "내용없음" ++ "_" ++ jsOr recipientStr "수신처없음"
    ++ "_" ++ jsOr authorStr "작성자미상" ++ ".pdf"

/-- A record whose author has 11 characters. -/
def longAuthorEntry : LedgerEntry :=
  { id := 1, date := "2024-01-02", docNum := "", content := "c", recipient := "r",
    author := "가나다라마바사아자차카" }

/-- C4 counterexample: on an 11-character author the code keeps all 11
characters, while the name claimed (author truncated to 10 like the
recipient) differs. -/
theorem claim_C4_counterexample :
    generateEntryFileName longAuthorEntry = "20240102_c_r_가나다라마바사아자차카.pdf" ∧
    generateEntryFileNameAuthorTruncated longAuthorEntry
      = "20240102_c_r_가나다라마바사아자차.pdf" ∧
    generateEntryFileName longAuthorEntry ≠ generateEntryFileNameAuthorTruncated longAuthorEntry ∧
    (sanitizeForFileName longAuthorEntry.author).length = 11 := by decide

/-- C4 amended: the author component of the deterministic attachment name is
the sanitized author in full — it is NOT truncated to 10 characters (unlike
the recipient component). -/
theorem claim_C4_amended (e : LedgerEntry) (h : sanitizeForFileName e.author ≠ "") :
    ∃ p : String,
      generateEntryFileName e = p ++ ("_" ++ sanitizeForFileName e.author ++ ".pdf") := by
  refine ⟨dateComponent e.date ++ "_" ++ contentComponent e.content ++ "_"
    ++ recipientComponent e.recipient, ?_⟩
  rw [generateEntryFileName_eq]
  unfold authorComponent jsOr
  rw [if_neg (fun hc => h ((String.isEmpty_iff _).1 hc))]
  simp only [String.append_assoc]

theorem claim_C4_amended_witness :
    sanitizeForFileName longAuthorEntry.author ≠ "" ∧
    ∃ p : String, generateEntryFileName longAuthorEntry
      = p ++ ("_" ++ sanitizeForFileName longAuthorEntry.author ++ ".pdf") :=
  ⟨by decide, claim_C4_amended longAuthorEntry (by decide)⟩

/-! ## C5: purity and sensitivity of the name -/

theorem generateEntryFileName_update_content (e : LedgerEntry) (c : String) :
    generateEntryFileName { e with content := c } =
      dateComponent e.date ++ "_" ++ contentComponent c ++ "_"
        ++ recipientComponent e.recipient ++ "_" ++ authorComponent e.author ++ ".pdf" := rfl

/-- C5 counterexample: appending a trailing space to the content (a change of
the content field) leaves the generated name unchanged, because
sanitization trims it away. -/
theorem claim_C5_counterexample :
    generateEntryFileName { exampleEntry with content := "승인요청서 " }
      = generateEntryFileName exampleEntry ∧
    ("승인요청서 " : String) ≠ exampleEntry.content := by decide

/-- C5 amended: the name is a pure function of the record — computing it
twice yields the identical string, and changing only `fileName` or
`fileData` leaves it unchanged; changing only the content field changes the
name exactly when the sanitized-and-truncated content component differs
(trailing whitespace, sanitization collisions or truncation beyond 20
characters can leave the name unchanged). -/
theorem claim_C5_amended (e : LedgerEntry) (fn fd : Option String) (c₁ c₂ : String)
    (h : contentComponent c₁ ≠ contentComponent c₂) :
    generateEntryFileName e = generateEntryFileName e ∧
    generateEntryFileName { e with fileName := fn, fileData := fd } = generateEntryFileName e ∧
    generateEntryFileName { e with content := c₁ } ≠ generateEntryFileName { e with content := c₂ } := by
  refine ⟨rfl, rfl, fun hEq => h ?_⟩
  rw [generateEntryFileName_update_content, generateEntryFileName_update_content] at hEq
  exact name_content_inj hEq

theorem claim_C5_amended_witness :
    contentComponent "A" ≠ contentComponent "B" ∧
    (generateEntryFileName exampleEntry = generateEntryFileName exampleEntry ∧
     generateEntryFileName { exampleEntry with fileName := some "x.pdf", fileData := some "AAAA" }
       = generateEntryFileName exampleEntry ∧
     generateEntryFileName { exampleEntry with content := "A" }
       ≠ generateEntryFileName { exampleEntry with content := "B" }) :=
  ⟨by decide, claim_C5_amended exampleEntry (some "x.pdf") (some "AAAA") "A" "B" (by decide)⟩

/-! ## C9: totality and placeholder components -/

/-- A record whose date consists solely of hyphens. -/
def hyphenDateEntry : LedgerEntry :=
  { id := 0, date := "---", docNum := "", content := "가", recipient := "나", author := "다" }

/-- The all-empty record. -/
def emptyEntry : LedgerEntry :=
  { id := 0, date := "", docNum := "", content := "", recipient := "", author := "" }

/-- C9 counterexample: the non-empty date "---" produces an EMPTY date
component (the name starts with an underscore), refuting "never produces an
empty component". -/
theorem claim_C9_counterexample :
    hyphenDateEntry.date ≠ "" ∧
    generateEntryFileName hyphenDateEntry = "_가_나_다.pdf" ∧
    dateComponent hyphenDateEntry.date = "" := by decide

/-- C9 amended: the name generator is total; the content, recipient and
author components are never empty (placeholders "내용없음", "수신처없음",
"작성자미상" replace empty-after-sanitization fields), an empty date maps
to "00000000" (though a date made only of hyphens leaves the date part
empty), and the result always ends in ".pdf". -/
theorem claim_C9_amended (e : LedgerEntry) :
    ∃ d c r a : String,
      generateEntryFileName e = d ++ "_" ++ c ++ "_" ++ r ++ "_" ++ a ++ ".pdf" ∧
      c ≠ "" ∧ r ≠ "" ∧ a ≠ "" ∧
      (e.date = "" → d = "00000000") ∧
      (sanitizeForFileName e.content = "" → c = "내용없음") ∧
      (sanitizeForFileName e.recipient = "" → r = "수신처없음") ∧
      (sanitizeForFileName e.author = "" → a = "작성자미상") ∧
      ∃ p : String, generateEntryFileName e = p ++ ".pdf" := by
  refine ⟨dateComponent e.date, contentComponent e.content, recipientComponent e.recipient,
    authorComponent e.author, generateEntryFileName_eq e,
    jsOr_ne_empty _ _ (by decide), jsOr_ne_empty _ _ (by decide), jsOr_ne_empty _ _ (by decide),
    ?_, ?_, ?_, ?_, ⟨_, generateEntryFileName_eq e⟩⟩
  · intro h; rw [dateComponent, h]; rfl
  · intro h; rw [contentComponent, h]; rfl
  · intro h; rw [recipientComponent, h]; rfl
  · intro h; rw [authorComponent, h]; rfl

theorem claim_C9_witness :
    generateEntryFileName emptyEntry = "00000000_내용없음_수신처없음_작성자미상.pdf" := by
  obtain ⟨d, c, r, a, heq, -, -, -, hd, hc, hr, ha, -⟩ := claim_C9_amended emptyEntry
  rw [heq, hd rfl, hc rfl, hr rfl, ha rfl]
  decide

/-! ## C7: sortAndRenumber and the sequence-number invariant

`sortAndRenumber` of the ledger-management component sorts the entries by
`date` (the in-place `sort` with `localeCompare`, modelled as a stable sort
by the ≤ order on date strings) and then reassigns `id := index + 1`. -/

/-- The comparator of `sortAndRenumber`: ascending `date`. -/
def dateLe (a b : LedgerEntry) : Prop := a.date ≤ b.date

instance : DecidableRel dateLe := fun a b => inferInstanceAs (Decidable (a.date ≤ b.date))

instance : IsTotal LedgerEntry dateLe := ⟨fun a b => le_total a.date b.date⟩

instance : IsTrans LedgerEntry dateLe := ⟨fun _ _ _ hab hbc => le_trans hab hbc⟩

/-- `map((entry, index) => ({...entry, id: index + 1}))`, with `n` the id of
the first element. -/
def renumber : Nat → List LedgerEntry → List LedgerEntry
  | _, [] => []
  | n, e :: es => { e with id := n } :: renumber (n + 1) es

/-- `sortAndRenumber` of the ledger-management component. -/
def sortAndRenumber (entries : List LedgerEntry) : List LedgerEntry :=
  renumber 1 (List.insertionSort dateLe entries)

/-- `handleSubmit`: append the new entry (temporary id 0), sort, renumber. -/
def insertEntry (l : List LedgerEntry) (e : LedgerEntry) : List LedgerEntry :=
  sortAndRenumber (l ++ [{ e with id := 0 }])

/-- `handleDeleteRow`: drop the entry with the given id, sort, renumber. -/
def deleteEntry (l : List LedgerEntry) (idToDelete : Nat) : List LedgerEntry :=
  sortAndRenumber (l.filter (fun it => it.id ≠ idToDelete))

/-- `handleCellEdit` on the `date` field: update the matching entry's date,
then sort and renumber. -/
def editDate (l : List LedgerEntry) (i : Nat) (v : String) : List LedgerEntry :=
  sortAndRenumber (l.map (fun it => if it.id = i then { it with date := v } else it))

theorem renumber_map_id (n : Nat) (l : List LedgerEntry) :
    (renumber n l).map (·.id) = List.range' n l.length := by
  induction l generalizing n with
  | nil => rfl
  | cons e es ih =>
    simp only [renumber, List.map_cons, List.length_cons, List.range'_succ]
    exact congrArg (n :: ·) (ih (n + 1))

theorem renumber_map_date (n : Nat) (l : List LedgerEntry) :
    (renumber n l).map (·.date) = l.map (·.date) := by
  induction l generalizing n with
  | nil => rfl
  | cons e es ih => simp only [renumber, List.map_cons, ih]

theorem renumber_length (n : Nat) (l : List LedgerEntry) :
    (renumber n l).length = l.length := by
  induction l generalizing n with
  | nil => rfl
  | cons e es ih => simp only [renumber, List.length_cons, ih]

theorem sorted_date_iff (m : List LedgerEntry) :
    List.Sorted dateLe m ↔ List.Pairwise (fun x y : String => x ≤ y) (m.map (·.date)) := by
  rw [List.pairwise_map]
  exact Iff.rfl

theorem sorted_date_renumber (n : Nat) (l : List LedgerEntry)
    (h : List.Sorted dateLe l) : List.Sorted dateLe (renumber n l) := by
  rw [sorted_date_iff, renumber_map_date, ← sorted_date_iff]
  exact h

theorem sortAndRenumber_ids (l : List LedgerEntry) :
    (sortAndRenumber l).map (·.id) = List.range' 1 l.length := by
  rw [sortAndRenumber, renumber_map_id, (List.perm_insertionSort dateLe l).length_eq]

theorem sortAndRenumber_length (l : List LedgerEntry) :
    (sortAndRenumber l).length = l.length := by
  rw [sortAndRenumber, renumber_length, (List.perm_insertionSort dateLe l).length_eq]

theorem sortAndRenumber_sorted (l : List LedgerEntry) :
    List.Sorted dateLe (sortAndRenumber l) :=
  sorted_date_renumber 1 _ (List.sorted_insertionSort dateLe l)

/-- C7.  After an insert, a delete, or a date edit, the id fields of the
resulting record list form the dense ascending run 1..N and the list is in
ascending order of the date field. -/
theorem claim_C7_sequence_invariant (l : List LedgerEntry) (e : LedgerEntry) (i : Nat)
    (v : String) :
    ((insertEntry l e).map (·.id) = List.range' 1 (insertEntry l e).length ∧
      List.Sorted dateLe (insertEntry l e)) ∧
    ((deleteEntry l i).map (·.id) = List.range' 1 (deleteEntry l i).length ∧
      List.Sorted dateLe (deleteEntry l i)) ∧
    ((editDate l i v).map (·.id) = List.range' 1 (editDate l i v).length ∧
      List.Sorted dateLe (editDate l i v)) := by
  refine ⟨⟨?_, sortAndRenumber_sorted _⟩, ⟨?_, sortAndRenumber_sorted _⟩,
    ⟨?_, sortAndRenumber_sorted _⟩⟩
  · rw [insertEntry, sortAndRenumber_ids, sortAndRenumber_length]
  · rw [deleteEntry, sortAndRenumber_ids, sortAndRenumber_length]
  · rw [editDate, sortAndRenumber_ids, sortAndRenumber_length]

/-! ## C2 / C8: the orphan cleanup of `syncSaveToDirectory`

The attachment subfolder is modelled as the list of its file names.  During
a save, `syncSaveToDirectory` writes one PDF per entry whose in-memory
`fileData` is truthy (collecting those generated names in `validPdfNames`)
and then deletes every file whose name ends in `.pdf` and is not in that
set. -/

/-- JavaScript `s.endsWith(t)`. -/
def jsEndsWith (s t : String) : Bool := t.data.isSuffixOf s.data

/-- Truthiness of `item.fileData` (absent or empty string is falsy). -/
def entryHasData (e : LedgerEntry) : Bool :=
  match e.fileData with
  | none => false
  | some s => !s.isEmpty

/-- The set of file names that SHOULD exist after the save: one generated
name per entry carrying in-memory attachment bytes. -/
def validPdfNames (data : List LedgerEntry) : List String :=
  (data.filter entryHasData).map generateEntryFileName

/-- The cleanup loop: delete every `.pdf` file not in `validNames`. -/
def cleanupOrphans (validNames : List String) (folder : List String) : List String :=
  folder.filter (fun name => !(jsEndsWith name ".pdf" && !(decide (name ∈ validNames))))

/-- The subfolder contents after a full save: the write phase creates the
files of `validPdfNames`, then the cleanup runs. -/
def saveFolderNames (data : List LedgerEntry) (folder : List String) : List String :=
  cleanupOrphans (validPdfNames data)
    (folder ++ (validPdfNames data).filter (fun n => !(decide (n ∈ folder))))

theorem mem_cleanupOrphans {validNames folder : List String} {n : String} :
    n ∈ cleanupOrphans validNames folder ↔
      n ∈ folder ∧ (jsEndsWith n ".pdf" = false ∨ n ∈ validNames) := by
  unfold cleanupOrphans
  rw [List.mem_filter]
  refine and_congr_right fun _ => ?_
  cases hE : jsEndsWith n ".pdf" <;> by_cases hM : n ∈ validNames <;>
    simp [hE, hM]

theorem validPdfNames_eq_nil {data : List LedgerEntry}
    (h : data.all (fun e => !entryHasData e) = true) : validPdfNames data = [] := by
  unfold validPdfNames
  have hf : data.filter entryHasData = [] := by
    rw [List.filter_eq_nil_iff]
    intro a ha
    have := (List.all_eq_true.1 h) a ha
    simpa using this
  rw [hf]
  rfl

/-- C2 counterexample: with `validNames = {"keep.pdf"}` on a folder holding
`a.txt`, `keep.pdf` and `orphan.pdf`, the cleanup leaves `a.txt` behind even
though it is not in `validNames` — the folder does not end up equal to
`validNames`. -/
theorem claim_C2_counterexample :
    cleanupOrphans ["keep.pdf"] ["a.txt", "keep.pdf", "orphan.pdf"]
      = ["a.txt", "keep.pdf"] ∧
    "a.txt" ∈ cleanupOrphans ["keep.pdf"] ["a.txt", "keep.pdf", "orphan.pdf"] ∧
    "a.txt" ∉ (["keep.pdf"] : List String) := by decide

/-- C2 amended: for every initial subfolder contents and every set of
valid names, the cleanup keeps exactly the files that are in `validNames`
or do not end in `.pdf` — i.e. it deletes exactly the `.pdf` files outside
`validNames` — and running it a second time with the same `validNames`
changes nothing. -/
theorem claim_C2_amended (validNames folder : List String) :
    (∀ n : String, n ∈ cleanupOrphans validNames folder ↔
      n ∈ folder ∧ (jsEndsWith n ".pdf" = false ∨ n ∈ validNames)) ∧
    cleanupOrphans validNames (cleanupOrphans validNames folder)
      = cleanupOrphans validNames folder := by
  refine ⟨fun n => mem_cleanupOrphans, ?_⟩
  unfold cleanupOrphans
  rw [List.filter_filter]
  simp [Bool.and_self]

/-- C8.  The exemption set is computed only from entries whose in-memory
`fileData` is present; the cleanup deletes a file iff its name ends in
`.pdf` and is outside that set; saving a record set with no in-memory
attachment bytes deletes every `.pdf` file; files not ending in `.pdf` are
never deleted. -/
theorem claim_C8_orphan_rules (data : List LedgerEntry) (folder : List String) (n : String) :
    validPdfNames data = validPdfNames (data.filter entryHasData) ∧
    (n ∈ folder → ((n ∉ cleanupOrphans (validPdfNames data) folder) ↔
      (jsEndsWith n ".pdf" = true ∧ n ∉ validPdfNames data))) ∧
    (data.all (fun e => !entryHasData e) = true → jsEndsWith n ".pdf" = true →
      n ∉ saveFolderNames data folder) ∧
    (n ∈ folder → jsEndsWith n ".pdf" = false → n ∈ saveFolderNames data folder) := by
  refine ⟨?_, ?_, ?_, ?_⟩
  · unfold validPdfNames
    rw [List.filter_filter]
    simp [Bool.and_self]
  · intro hn
    rw [mem_cleanupOrphans]
    cases hE : jsEndsWith n ".pdf" <;> by_cases hM : n ∈ validPdfNames data <;>
      simp [hn, hE, hM]
  · intro hall hpdf hmem
    rw [saveFolderNames, mem_cleanupOrphans, validPdfNames_eq_nil hall] at hmem
    rcases hmem.2 with h | h
    · rw [hpdf] at h; exact Bool.true_eq_false.mp h
    · exact absurd h (List.not_mem_nil n)
  · intro hn hpdf
    rw [saveFolderNames, mem_cleanupOrphans]
    exact ⟨List.mem_append_left _ hn, Or.inl hpdf⟩

theorem claim_C8_witness :
    ("a.pdf" ∉ saveFolderNames [exampleEntry] ["a.pdf", "b.txt"]) ∧
    ("b.txt" ∈ saveFolderNames [exampleEntry] ["a.pdf", "b.txt"]) :=
  ⟨(claim_C8_orphan_rules [exampleEntry] ["a.pdf", "b.txt"] "a.pdf").2.2.1 (by decide) (by decide),
   (claim_C8_orphan_rules [exampleEntry] ["a.pdf", "b.txt"] "b.txt").2.2.2 (by decide) (by decide)⟩

/-! ## The Database Document (`src/types.ts`) and the lock manager

`types.ts` declares `LockState`, `LogEntry`, `CombinedDatabase` and
`INITIAL_DB`.  The functions operating on them (`connectAndLock`, the
document codec) are imported by the management component and the log viewer
but their implementation file is not in the source tree, so they are
modelled from the spec (§4.1 Lock Manager, §4.2 Database Document codec). -/

/-- `LockStatus` of `src/types.ts`. -/
inductive LockStatus where
  | LOCKED : LockStatus
  | UNLOCKED : LockStatus
deriving DecidableEq

/-- `LockState` of `src/types.ts`. -/
structure LockState where
  status : LockStatus
  activeUser : Option String
  startTime : Option String
deriving DecidableEq

/-- `LogEntry.action` of `src/types.ts`. -/
inductive LogAction where
  | CONNECT : LogAction
  | DISCONNECT_SAVE : LogAction
  | FORCE_UNLOCK : LogAction
deriving DecidableEq

/-- `LogEntry` of `src/types.ts` (the optional `details` field is omitted;
no claim concerns it). -/
structure LogEntry where
  timestamp : String
  userName : String
  action : LogAction
deriving DecidableEq

/-- `CombinedDatabase` of `src/types.ts`: the single JSON Database Document
(entries carry metadata only — `fileData` is never serialized). -/
structure CombinedDatabase where
  password : Option String
  lock : LockState
  logs : List LogEntry
  entries : List LedgerEntry
deriving DecidableEq

/-- `INITIAL_DB` of `src/types.ts`. -/
def INITIAL_DB : CombinedDatabase :=
  { password := some "2888",
    lock := { status := .UNLOCKED, activeUser := none, startTime := none },
    logs := [],
    entries := [] }

/-- Modelled from the spec: every write truncates the log to the most
recent 200 entries (§3 LogEntry, §4.2); the log-writing code itself is not
under `src/`. -/
def truncateLogs (logs : List LogEntry) : List LogEntry :=
  logs.drop (logs.length - 200)

/-- The possible outcomes of reading the backing Database Document file. -/
inductive DbFileRead where
  | absent : DbFileRead
  | unreadable : DbFileRead
  | malformed : DbFileRead
  | parsed (password : Option String) (lock : LockState) (logs : List LogEntry)
      (entries : List LedgerEntry) : DbFileRead
deriving DecidableEq

/-- Modelled from the spec: the Database Document codec `read()` (§4.2),
whose implementation file is not under `src/` (only `INITIAL_DB` and the
callers are).  An absent, unreadable or malformed backing file yields a
fresh default document rather than an error; a missing `accessPassword` on
an otherwise-valid document is backfilled with the default sentinel
"2888". -/
def readDb : DbFileRead → CombinedDatabase
  | .absent => INITIAL_DB
  | .unreadable => INITIAL_DB
  | .malformed => INITIAL_DB
  | .parsed pw lockSt logs entries =>
      { password := some (pw.getD "2888"), lock := lockSt, logs := logs, entries := entries }

/-- Modelled from the spec: `acquire(userName)` / `connectAndLock` (§4.1),
whose implementation file is not under `src/` (only its caller
`handleConnectFolder` is).  On a LOCKED document it fails with a contention
error carrying the current `LockState` and writes nothing; on an UNLOCKED
document it sets status LOCKED for the requesting user at the current time,
appends a CONNECT log entry (truncating the log), and returns the records.
The second component is the directory's Database Document after the
attempt. -/
def connectAndLock (db : CombinedDatabase) (userName now : String) :
    Except LockState (List LedgerEntry) × CombinedDatabase :=
  match db.lock.status with
  | .LOCKED => (Except.error db.lock, db)
  | .UNLOCKED =>
      (Except.ok db.entries,
        { db with
            lock := { status := .LOCKED, activeUser := some userName, startTime := some now },
            logs := truncateLogs
              (db.logs ++ [{ timestamp := now, userName := userName, action := .CONNECT }]) })

/-- C1.  An acquire attempt on a LOCKED document fails with a contention
error carrying the holder's `LockState` and leaves the document (hence the
holder's identity) unchanged; on an UNLOCKED document it succeeds and flips
the lock to LOCKED with the requesting user as `activeUser`. -/
theorem claim_C1_acquire_contention (db : CombinedDatabase) (u now : String) :
    (db.lock.status = .LOCKED →
      connectAndLock db u now = (Except.error db.lock, db)) ∧
    (db.lock.status = .UNLOCKED →
      (connectAndLock db u now).1 = Except.ok db.entries ∧
      (connectAndLock db u now).2.lock.status = .LOCKED ∧
      (connectAndLock db u now).2.lock.activeUser = some u ∧
      (connectAndLock db u now).2.lock.startTime = some now) := by
  constructor
  · intro h
    simp [connectAndLock, h]
  · intro h
    simp [connectAndLock, h]

/-- A document currently held by alice. -/
def lockedDb : CombinedDatabase :=
  { INITIAL_DB with
      lock := { status := .LOCKED, activeUser := some "alice",
                startTime := some "2024-01-01T09:00:00.000Z" } }

theorem claim_C1_acquire_contention_witness :
    connectAndLock lockedDb "bob" "2024-01-01T10:00:00.000Z"
      = (Except.error lockedDb.lock, lockedDb) ∧
    ((connectAndLock INITIAL_DB "alice" "2024-01-01T09:00:00.000Z").1
        = Except.ok INITIAL_DB.entries ∧
      (connectAndLock INITIAL_DB "alice" "2024-01-01T09:00:00.000Z").2.lock.status = .LOCKED ∧
      (connectAndLock INITIAL_DB "alice" "2024-01-01T09:00:00.000Z").2.lock.activeUser
        = some "alice" ∧
      (connectAndLock INITIAL_DB "alice" "2024-01-01T09:00:00.000Z").2.lock.startTime
        = some "2024-01-01T09:00:00.000Z") :=
  ⟨(claim_C1_acquire_contention lockedDb "bob" "2024-01-01T10:00:00.000Z").1 rfl,
   (claim_C1_acquire_contention INITIAL_DB "alice" "2024-01-01T09:00:00.000Z").2 rfl⟩

/-- C6.  Reading a directory whose backing Database Document file is
absent, unreadable or malformed does not fail: it yields the fresh default
document (empty records, unlocked, empty log). -/
theorem claim_C6_resilient_read (f : DbFileRead)
    (h : f = .absent ∨ f = .unreadable ∨ f = .malformed) : readDb f = INITIAL_DB := by
  rcases h with h | h | h <;> subst h <;> rfl

theorem claim_C6_resilient_read_witness : readDb DbFileRead.malformed = INITIAL_DB :=
  claim_C6_resilient_read DbFileRead.malformed (Or.inr (Or.inr rfl))

/-! ## C10: `normalizeDate` of the spreadsheet import

Cell values are numbers or strings; numbers are modelled as integers and
the `Number(str)` test is modelled on decimal digit strings with an
optional fractional part (scientific and hexadecimal notation are outside
the model).  `split` on a one-character separator is given its own
recursive definition `splitOnChar`. -/

/-- An imported spreadsheet cell value. -/
inductive CellValue where
  | num (n : Int) : CellValue
  | str (s : String) : CellValue
deriving DecidableEq

/-- The character class of the `\d` regex atom. -/
def isDigitChar (c : Char) : Bool := "0123456789".data.contains c

/-- `split` on a single-character separator. -/
def splitOnChar (sep : Char) : List Char → List (List Char)
  | [] => [[]]
  | c :: cs =>
      if c = sep then [] :: splitOnChar sep cs
      else
        match splitOnChar sep cs with
        | [] => [[c]]
        | h :: t => (c :: h) :: t

/-- The numeric value of a digit list (most significant first). -/
def digitsVal (l : List Char) : Nat :=
  l.foldl (fun acc c => acc * 10 + (c.toNat - 48)) 0

/-- A non-empty all-digit list parses to its value. -/
def natOfDigits? (l : List Char) : Option Nat :=
  if !l.isEmpty && l.all isDigitChar then some (digitsVal l) else none

/-- The `!isNaN(Number(str))` test together with the parsed value, on
decimal digit strings with an optional fractional part: the integer part
and whether the fractional part is positive. -/
def parseNumericString (s : String) : Option (Nat × Bool) :=
  match splitOnChar '.' s.data with
  | [a] => (natOfDigits? a).map (fun n => (n, false))
  | [a, b] =>
      if !(a.isEmpty && b.isEmpty) && a.all isDigitChar && b.all isDigitChar then
        some (digitsVal a, decide (0 < digitsVal b))
      else none
  | _ => none

/-- `val > 30000 && val < 60000` for the value `ip + fraction`. -/
def serialInRange (ip : Nat) (fracPos : Bool) : Bool :=
  (decide (30000 < ip) || (decide (ip = 30000) && fracPos)) && decide (ip < 60000)

/-- Proleptic-Gregorian civil date from a day count since 1970-01-01 (the
date part of `Date.prototype.toISOString`), for the post-1970 range the
serial check admits. -/
def civilFromDays (z0 : Nat) : Nat × Nat × Nat :=
  let z := z0 + 719468
  let era := z / 146097
  let doe := z - era * 146097
  let yoe := (doe - doe / 1460 + doe / 36524 - doe / 146096) / 365
  let y := yoe + era * 400
  let doy := doe - (365 * yoe + yoe / 4 - yoe / 100)
  let mp := (5 * doy + 2) / 153
  let d := doy - (153 * mp + 2) / 5 + 1
  if mp < 10 then (y, mp + 3, d) else (y + 1, mp - 9, d)

/-- Zero-pad a number below 10 to two digits. -/
def pad2 (n : Nat) : String := if n < 10 then "0" ++ toString n else toString n

/-- `excelDateToJSDate` (fileService.ts): `floor(serial - 25569)` days after
the epoch, rendered as the date part of `toISOString`. -/
def excelDateToJSDate (serial : Nat) : String :=
  match civilFromDays (serial - 25569) with
  | (y, m, d) => toString y ++ "-" ++ pad2 m ++ "-" ++ pad2 d

/-- The global replacement of `'.'` and `'/'` by `'-'`. -/
def replaceSeparators (s : String) : String :=
  ⟨s.data.map (fun c => if c = '.' ∨ c = '/' then '-' else c)⟩

/-- The global removal of whitespace. -/
def removeWhitespace (s : String) : String := ⟨s.data.filter (fun c => !jsWhitespace c)⟩

/-- `padStart(2, '0')`. -/
def padStart2 (s : String) : String :=
  match s.length with
  | 0 => "00"
  | 1 => "0" ++ s
  | _ => s

/-- The test against the anchored regex of four digits, a hyphen, one or
two digits, a hyphen, one or two digits, returning the three digit groups. -/
def dateShape (s : String) : Option (String × String × String) :=
  match splitOnChar '-' s.data with
  | [a, b, c] =>
      if decide (a.length = 4) && a.all isDigitChar
          && !a.isEmpty && (!b.isEmpty && decide (b.length ≤ 2)) && b.all isDigitChar
          && (!c.isEmpty && decide (c.length ≤ 2)) && c.all isDigitChar
      then some (⟨a⟩, ⟨b⟩, ⟨c⟩) else none
  | _ => none

/-- The tail of `normalizeDate`: separator replacement, whitespace removal
and the date-format check with zero-padding. -/
def fallbackFormat (str : String) : String :=
  let normalized := removeWhitespace (replaceSeparators str)
  match dateShape normalized with
  | some (a, b, c) => a ++ "-" ++ padStart2 b ++ "-" ++ padStart2 c
  | none => normalized

/-- The string pipeline of `normalizeDate` after the leading falsy and
typeof-number checks: trim, numeric-serial test, then `fallbackFormat`. -/
def normalizeString (s : String) : String :=
  let str := jsTrim s
  match parseNumericString str with
  | some (ip, fracPos) =>
      if serialInRange ip fracPos then excelDateToJSDate ip else fallbackFormat str
  | none => fallbackFormat str

/-- `normalizeDate` (fileService.ts). -/
def normalizeDate (val : CellValue) : String :=
  match val with
  | .num n =>
      if n = 0 then ""
      else if 30000 < n ∧ n < 60000 then excelDateToJSDate n.toNat
      else normalizeString (toString n)
  | .str s => if s = "" then "" else normalizeString s

/-! ### Facts about `splitOnChar` and digit strings -/

theorem splitOnChar_ne_nil (sep : Char) (l : List Char) : splitOnChar sep l ≠ [] := by
  cases l with
  | nil => simp [splitOnChar]
  | cons c cs =>
    unfold splitOnChar
    split
    · simp
    · cases hsp : splitOnChar sep cs <;> simp

theorem splitOnChar_of_not_mem {sep : Char} {l : List Char} (h : sep ∉ l) :
    splitOnChar sep l = [l] := by
  induction l with
  | nil => rfl
  | cons c cs ih =>
    have hc : ¬ c = sep := fun he => h (he ▸ List.mem_cons_self c cs)
    have hcs : sep ∉ cs := fun hm => h (List.mem_cons_of_mem c hm)
    rw [splitOnChar, if_neg hc, ih hcs]

theorem splitOnChar_append {sep : Char} {a : List Char} (b : List Char) (ha : sep ∉ a) :
    splitOnChar sep (a ++ sep :: b) = a :: splitOnChar sep b := by
  induction a with
  | nil => simp [splitOnChar]
  | cons c cs ih =>
    have hc : ¬ c = sep := fun he => ha (he ▸ List.mem_cons_self c cs)
    have hcs : sep ∉ cs := fun hm => ha (List.mem_cons_of_mem c hm)
    rw [List.cons_append, splitOnChar, if_neg hc, ih hcs]

theorem eq_of_splitOnChar_single {sep : Char} : ∀ {l a : List Char},
    splitOnChar sep l = [a] → l = a ∧ sep ∉ a := by
  intro l
  induction l with
  | nil =>
    intro a h
    simp only [splitOnChar, List.cons.injEq, and_true] at h
    exact ⟨h, h ▸ List.not_mem_nil sep⟩
  | cons c cs ih =>
    intro a h
    unfold splitOnChar at h
    by_cases hc : c = sep
    · rw [if_pos hc] at h
      simp only [List.cons.injEq] at h
      exact absurd h.2 (splitOnChar_ne_nil sep cs)
    · rw [if_neg hc] at h
      cases hsp : splitOnChar sep cs with
      | nil => exact absurd hsp (splitOnChar_ne_nil sep cs)
      | cons hd tl =>
        rw [hsp] at h
        simp only [List.cons.injEq] at h
        obtain ⟨rfl, rfl⟩ := h
        obtain ⟨rfl, hnm⟩ := ih hsp
        refine ⟨rfl, ?_⟩
        intro hmem
        rcases List.mem_cons.1 hmem with he | hm
        · exact hc he.symm
        · exact hnm hm

theorem eq_of_splitOnChar_pair {sep : Char} : ∀ {l a b : List Char},
    splitOnChar sep l = [a, b] → l = a ++ sep :: b ∧ sep ∉ a ∧ sep ∉ b := by
  intro l
  induction l with
  | nil =>
    intro a b h
    simp [splitOnChar] at h
  | cons c cs ih =>
    intro a b h
    unfold splitOnChar at h
    by_cases hc : c = sep
    · rw [if_pos hc] at h
      simp only [List.cons.injEq] at h
      obtain ⟨ha, h2⟩ := h
      obtain ⟨rfl, hb⟩ := eq_of_splitOnChar_single h2
      subst hc
      exact ⟨by rw [← ha]; rfl, by rw [← ha]; exact List.not_mem_nil _, hb⟩
    · rw [if_neg hc] at h
      cases hsp : splitOnChar sep cs with
      | nil => exact absurd hsp (splitOnChar_ne_nil sep cs)
      | cons hd tl =>
        rw [hsp] at h
        simp only [List.cons.injEq] at h
        obtain ⟨rfl, rfl⟩ := h
        obtain ⟨rfl, hnm, hb⟩ := ih hsp
        refine ⟨rfl, ?_, hb⟩
        intro hmem
        rcases List.mem_cons.1 hmem with he | hm
        · exact hc he.symm
        · exact hnm hm

theorem digitChar_facts {c : Char} (h : isDigitChar c = true) :
    (if c = '.' ∨ c = '/' then '-' else c) = c ∧ jsWhitespace c = false ∧ c ≠ '-' := by
  have hmem : c ∈ "0123456789".data := by
    have : "0123456789".data.contains c = true := h
    exact List.mem_of_elem_eq_true this
  fin_cases hmem <;> exact ⟨rfl, rfl, by decide⟩

theorem map_repl_of_digits {l : List Char} (h : l.all isDigitChar = true) :
    l.map (fun c => if c = '.' ∨ c = '/' then '-' else c) = l := by
  induction l with
  | nil => rfl
  | cons c cs ih =>
    rw [List.all_cons, Bool.and_eq_true] at h
    rw [List.map_cons, (digitChar_facts h.1).1, ih h.2]

theorem filter_ws_of_digits {l : List Char} (h : l.all isDigitChar = true) :
    l.filter (fun c => !jsWhitespace c) = l := by
  rw [List.filter_eq_self]
  intro a ha
  have hd := (List.all_eq_true.1 h) a ha
  rw [(digitChar_facts hd).2.1]
  rfl

theorem not_hyphen_mem_of_digits {l : List Char} (h : l.all isDigitChar = true) :
    '-' ∉ l := by
  intro hm
  have := (List.all_eq_true.1 h) '-' hm
  exact absurd this (by decide)

theorem natOfDigits?_some {l : List Char} {n : Nat} (h : natOfDigits? l = some n) :
    l.all isDigitChar = true := by
  unfold natOfDigits? at h
  split at h
  · next hcond =>
    rw [Bool.and_eq_true] at hcond
    exact hcond.2
  · exact absurd h (by simp)

/-- A successful `Number(str)` parse leaves no hyphens to find: the
normalized string has at most one hyphen (from the optional decimal point),
so it can never match the three-group date format. -/
theorem parse_some_dateShape_none {str : String} {ip : Nat} {fp : Bool}
    (h : parseNumericString str = some (ip, fp)) :
    dateShape (removeWhitespace (replaceSeparators str)) = none := by
  unfold parseNumericString at h
  cases hsp : splitOnChar '.' str.data with
  | nil => exact absurd hsp (splitOnChar_ne_nil '.' str.data)
  | cons a t =>
    cases t with
    | nil =>
      rw [hsp] at h
      replace h : (natOfDigits? a).map (fun n => (n, false)) = some (ip, fp) := h
      rw [Option.map_eq_some'] at h
      obtain ⟨n, hn, -⟩ := h
      have hdig := natOfDigits?_some hn
      obtain ⟨hl, -⟩ := eq_of_splitOnChar_single hsp
      unfold dateShape removeWhitespace replaceSeparators
      rw [hl]
      show (match splitOnChar '-' ((a.map _).filter _) with
        | [x, y, z] => _ | _ => none) = none
      rw [map_repl_of_digits hdig, filter_ws_of_digits hdig,
        splitOnChar_of_not_mem (not_hyphen_mem_of_digits hdig)]
    | cons b t2 =>
      cases t2 with
      | nil =>
        rw [hsp] at h
        replace h : (if !(a.isEmpty && b.isEmpty) && a.all isDigitChar && b.all isDigitChar
            then some (digitsVal a, decide (0 < digitsVal b)) else none) = some (ip, fp) := h
        split at h
        · next hcond =>
          rw [Bool.and_eq_true, Bool.and_eq_true] at hcond
          have hadig := hcond.1.2
          have hbdig := hcond.2
          obtain ⟨hl, -, -⟩ := eq_of_splitOnChar_pair hsp
          unfold dateShape removeWhitespace replaceSeparators
          rw [hl]
          show (match splitOnChar '-' (((a ++ '.' :: b).map _).filter _) with
            | [x, y, z] => _ | _ => none) = none
          rw [List.map_append, List.map_cons, map_repl_of_digits hadig,
            map_repl_of_digits hbdig]
          show (match splitOnChar '-' ((a ++ '-' :: b).filter _) with
            | [x, y, z] => _ | _ => none) = none
          rw [List.filter_append, List.filter_cons, filter_ws_of_digits hadig,
            filter_ws_of_digits hbdig]
          show (match splitOnChar '-' (a ++ '-' :: b) with
            | [x, y, z] => _ | _ => none) = none
          rw [splitOnChar_append b (not_hyphen_mem_of_digits hadig),
            splitOnChar_of_not_mem (not_hyphen_mem_of_digits hbdig)]
        · exact absurd h (by simp)
      | cons =>
        rw [hsp] at h
        replace h : (none : Option (Nat × Bool)) = some (ip, fp) := h
        exact absurd h (by simp)

/-- The output claim C10's last clause predicts for non-date values: only
the separator replacements (`'.'` and `'/'` to `'-'`) applied — without the
whitespace removal the code also performs. -/
def separatorReplacementOnly : CellValue → String
  | .num n => replaceSeparators (toString n)
  | .str s => replaceSeparators s

/-- C10 counterexample: on the cell string "2024 03 05" (no separators, so
the claimed result is the string unchanged) `normalizeDate` also removes
the spaces and returns "20240305". -/
theorem claim_C10_counterexample :
    normalizeDate (CellValue.str "2024 03 05") = "20240305" ∧
    separatorReplacementOnly (CellValue.str "2024 03 05") = "2024 03 05" ∧
    normalizeDate (CellValue.str "2024 03 05")
      ≠ separatorReplacementOnly (CellValue.str "2024 03 05") := by decide

/-- C10 amended: a numeric value (or numeric string) strictly between
30000 and 60000 maps to the ISO date of that Excel serial day; a string
whose trimmed, separator-replaced, whitespace-stripped form matches the
four-digit/one-or-two-digit/one-or-two-digit hyphen format maps to that
date with month and day zero-padded; all other values are returned with the
separator replacements AND the whitespace removal applied (and falsy cells
map to the empty string).  Concretely, serial 45000 is 2023-03-15 and
"2024.3.5" becomes "2024-03-05". -/
theorem claim_C10_normalizeDate_amended :
    (∀ n : Int, 30000 < n → n < 60000 →
      normalizeDate (CellValue.num n) = excelDateToJSDate n.toNat) ∧
    (∀ (s : String) (ip : Nat) (fp : Bool), s ≠ "" →
      parseNumericString (jsTrim s) = some (ip, fp) → serialInRange ip fp = true →
      normalizeDate (CellValue.str s) = excelDateToJSDate ip) ∧
    (∀ (s : String) (a b c : String), s ≠ "" →
      dateShape (removeWhitespace (replaceSeparators (jsTrim s))) = some (a, b, c) →
      normalizeDate (CellValue.str s) = a ++ "-" ++ padStart2 b ++ "-" ++ padStart2 c) ∧
    (∀ s : String, s ≠ "" →
      dateShape (removeWhitespace (replaceSeparators (jsTrim s))) = none →
      (∀ (ip : Nat) (fp : Bool), parseNumericString (jsTrim s) = some (ip, fp) →
        serialInRange ip fp = false) →
      normalizeDate (CellValue.str s) = removeWhitespace (replaceSeparators (jsTrim s))) ∧
    normalizeDate (CellValue.num 45000) = "2023-03-15" ∧
    normalizeDate (CellValue.str "45000") = "2023-03-15" ∧
    normalizeDate (CellValue.str "2024.3.5") = "2024-03-05" ∧
    normalizeDate (CellValue.num 0) = "" := by
  refine ⟨?_, ?_, ?_, ?_, by decide, by decide, by decide, by decide⟩
  · intro n h1 h2
    have hne : ¬ n = 0 := by omega
    simp [normalizeDate, hne, h1, h2]
  · intro s ip fp hs hp hr
    simp [normalizeDate, hs, normalizeString, hp, hr]
  · intro s a b c hs hshape
    cases hp : parseNumericString (jsTrim s) with
    | none => simp [normalizeDate, hs, normalizeString, hp, fallbackFormat, hshape]
    | some pair =>
      obtain ⟨ip, fp⟩ := pair
      rw [parse_some_dateShape_none hp] at hshape
      exact absurd hshape (by simp)
  · intro s hs hshape hser
    cases hp : parseNumericString (jsTrim s) with
    | none => simp [normalizeDate, hs, normalizeString, hp, fallbackFormat, hshape]
    | some pair =>
      obtain ⟨ip, fp⟩ := pair
      simp [normalizeDate, hs, normalizeString, hp, hser ip fp hp, fallbackFormat, hshape]

theorem claim_C10_normalizeDate_amended_witness :
    normalizeDate (CellValue.num 45000) = excelDateToJSDate (Int.toNat 45000) ∧
    normalizeDate (CellValue.str "2024.3.5")
      = "2024" ++ "-" ++ padStart2 "3" ++ "-" ++ padStart2 "5" :=
  ⟨claim_C10_normalizeDate_amended.1 45000 (by decide) (by decide),
   claim_C10_normalizeDate_amended.2.2.1 "2024.3.5" "2024" "3" "5" (by decide) (by decide)⟩

end Sealmaster
